/-
  Verification of the CS-Suomi update bot against its design document.

  The bot's source consists of several JavaScript variants of the same
  pipeline.  We shallowly embed the relevant functions over `List Char`
  (JS strings are sequences of UTF-16 units; all text handled by the
  claims is in the basic multilingual plane, so one `Char` per unit is
  faithful).  JS regular-expression `String.replace` calls are embedded
  as left-to-right scanners (`replaceScan`) with one deterministic
  matcher per regex; each matcher is a direct transcription of the
  corresponding pattern (all the patterns used by the bot are
  backtracking-free, so a deterministic matcher has the same semantics).
-/
import Mathlib

/-- Characters of a string literal (JS strings as lists of chars). -/
def lc (s : String) : List Char := s.data

/-- JS whitespace class used by trim and by the regex class backslash-s
    (ASCII whitespace plus no-break space; an approximation of the full
    Unicode class that is exact on the bot's data). -/
def isJsWs (c : Char) : Bool :=
  c = ' ' || c = '\t' || c = '\n' || c = '\r' ||
  c = Char.ofNat 11 || c = Char.ofNat 12 || c = Char.ofNat 160

/-- JS String.prototype.trim, left part. -/
def trimL (s : List Char) : List Char := s.dropWhile isJsWs

/-- JS String.prototype.trim, right part. -/
def trimR (s : List Char) : List Char := (s.reverse.dropWhile isJsWs).reverse

/-- JS String.prototype.trim. -/
def trimStr (s : List Char) : List Char := trimL (trimR s)

/-- JS toUpperCase, restricted to ASCII (exact on the bot's data). -/
def jsToUpper (c : Char) : Char :=
  if 97 ≤ c.toNat ∧ c.toNat ≤ 122 then Char.ofNat (c.toNat - 32) else c

/-- JS toLowerCase, restricted to ASCII (exact on the bot's data). -/
def jsToLower (c : Char) : Char :=
  if 65 ≤ c.toNat ∧ c.toNat ≤ 90 then Char.ofNat (c.toNat + 32) else c

/-- A deterministic pattern: on success returns the number of consumed
    characters and the remaining input. -/
abbrev P := List Char → Option (Nat × List Char)

/-- Match one fixed character. -/
def pChar (c₀ : Char) : P := fun s =>
  match s with
  | c :: cs => if c = c₀ then some (1, cs) else none
  | [] => none

/-- Match one character satisfying a predicate. -/
def pCharIf (f : Char → Bool) : P := fun s =>
  match s with
  | c :: cs => if f c then some (1, cs) else none
  | [] => none

/-- Greedy whitespace run (regex backslash-s star). -/
def pWs : P := fun s =>
  let n := (s.takeWhile isJsWs).length
  some (n, s.drop n)

/-- Greedy whitespace run of length at least one (backslash-s plus). -/
def pWsPlus : P := fun s =>
  let n := (s.takeWhile isJsWs).length
  if n = 0 then none else some (n, s.drop n)

/-- Greedy run of non-gt characters (regex class excluding the
    closing angle bracket, star). -/
def pNonGtStar : P := fun s =>
  let n := (s.takeWhile (fun c => !(c = '>'))).length
  some (n, s.drop n)

/-- Greedy run of non-gt characters, length at least one. -/
def pNonGtPlus : P := fun s =>
  let n := (s.takeWhile (fun c => !(c = '>'))).length
  if n = 0 then none else some (n, s.drop n)

/-- Case-sensitive literal. -/
def pLit : List Char → P
  | [], s => some (0, s)
  | p :: ps, c :: cs => if c = p then
      match pLit ps cs with
      | some (n, r) => some (n + 1, r)
      | none => none
    else none
  | _ :: _, [] => none

/-- Case-insensitive literal (pattern given in lower case). -/
def pLitCi : List Char → P
  | [], s => some (0, s)
  | p :: ps, c :: cs => if jsToLower c = p then
      match pLitCi ps cs with
      | some (n, r) => some (n + 1, r)
      | none => none
    else none
  | _ :: _, [] => none

/-- Sequencing of patterns. -/
def pSeq (p q : P) : P := fun s =>
  match p s with
  | none => none
  | some (n, r) =>
    match q r with
    | none => none
    | some (m, r2) => some (n + m, r2)

/-- Optional pattern (regex question mark on a deterministic atom). -/
def pOpt (p : P) : P := fun s =>
  match p s with
  | some x => some x
  | none => some (0, s)

/-- One case-insensitive character. -/
def pCharCi (c₀ : Char) : P := pCharIf (fun c => jsToLower c = c₀)

/-- A matcher: at the head of the input either fails or produces a
    replacement together with the total number of consumed characters
    (always at least one for all matchers used here). -/
abbrev M := List Char → Option (List Char × Nat)

/-- Matcher from a pattern with a fixed replacement. -/
def mSimple (p : P) (rep : List Char) : M := fun s =>
  match p s with
  | some (n, _) => some (rep, n)
  | none => none

/-- Earliest match of a closing pattern (the lazy dot-star of the JS
    regexes): returns the captured prefix, total consumed characters
    (capture plus closing match) and the rest. -/
def findClose (closeP : P) : List Char → Option (List Char × Nat × List Char)
  | [] => none
  | c :: cs =>
    match closeP (c :: cs) with
    | some (n, r) => some ([], n, r)
    | none =>
      match findClose closeP cs with
      | some (cap, n, r) => some (c :: cap, n + 1, r)
      | none => none

/-- Matcher for an open-pattern, lazy capture, close-pattern regex,
    with the replacement computed from the capture. -/
def mPaired (openP closeP : P) (wrap : List Char → List Char) : M := fun s =>
  match openP s with
  | none => none
  | some (n1, r1) =>
    match findClose closeP r1 with
    | none => none
    | some (cap, n2, _) => some (wrap cap, n1 + n2)

/-- Fuelled global replace: repeatedly try the matcher at each
    position, emitting replacements; the fuel (an upper bound on the
    input length) only serves structural recursion. -/
def replaceScanF (m : M) : Nat → List Char → List Char
  | _, [] => []
  | 0, s => s
  | n + 1, c :: cs =>
    match m (c :: cs) with
    | some (rep, k) => rep ++ replaceScanF m n (cs.drop (k - 1))
    | none => c :: replaceScanF m n cs

/-- JS global-flag String.replace with matcher m. -/
def replaceScan (m : M) (s : List Char) : List Char := replaceScanF m s.length s

theorem replaceScanF_congr (m : M) :
    ∀ n₁ n₂ s, s.length ≤ n₁ → s.length ≤ n₂ →
      replaceScanF m n₁ s = replaceScanF m n₂ s := by
  intro n₁
  induction n₁ with
  | zero =>
    intro n₂ s h₁ _
    have hs : s = [] := List.length_eq_zero.mp (Nat.le_zero.mp h₁)
    subst hs
    cases n₂ <;> rfl
  | succ a ih =>
    intro n₂ s h₁ h₂
    cases s with
    | nil => cases n₂ <;> rfl
    | cons c cs =>
      cases n₂ with
      | zero => exact absurd h₂ (by simp)
      | succ b =>
        simp only [replaceScanF]
        cases hm : m (c :: cs) with
        | none =>
          have := ih b cs (by simpa using h₁) (by simpa using h₂)
          simp [this]
        | some v =>
          obtain ⟨rep, k⟩ := v
          have hd : (cs.drop (k - 1)).length ≤ cs.length := by
            simp [List.length_drop]
          have := ih b (cs.drop (k - 1))
            (Nat.le_trans hd (by simpa using h₁))
            (Nat.le_trans hd (by simpa using h₂))
          simp [this]

theorem replaceScan_nil (m : M) : replaceScan m [] = [] := rfl

theorem replaceScan_cons_none (m : M) (c : Char) (cs : List Char)
    (h : m (c :: cs) = none) :
    replaceScan m (c :: cs) = c :: replaceScan m cs := by
  simp only [replaceScan, List.length_cons, replaceScanF, h]

theorem replaceScan_cons_some (m : M) (c : Char) (cs rep : List Char) (k : Nat)
    (h : m (c :: cs) = some (rep, k)) :
    replaceScan m (c :: cs) = rep ++ replaceScan m (cs.drop (k - 1)) := by
  simp only [replaceScan, List.length_cons, replaceScanF, h]
  have hd : (cs.drop (k - 1)).length ≤ cs.length := by
    simp [List.length_drop]
  rw [replaceScanF_congr m cs.length (cs.drop (k - 1)).length (cs.drop (k - 1)) hd le_rfl]

theorem replaceScan_append (m : M) (C r : List Char)
    (h : ∀ c ∈ C, ∀ cs, m (c :: cs) = none) :
    replaceScan m (C ++ r) = C ++ replaceScan m r := by
  induction C with
  | nil => simp
  | cons c C ih =>
    have hc : m (c :: (C ++ r)) = none := h c (by simp) _
    rw [List.cons_append, replaceScan_cons_none m c (C ++ r) hc,
      ih (fun d hd cs => h d (by simp [hd]) cs), List.cons_append]

theorem replaceScan_id (m : M) (s : List Char)
    (h : ∀ c ∈ s, ∀ cs, m (c :: cs) = none) :
    replaceScan m s = s := by
  have := replaceScan_append m s [] h
  simpa [replaceScan_nil] using this

/-- Identity of a scan whose matcher only fires on a trigger character
    absent from the input. -/
theorem replaceScan_id_of_trigger (m : M) (c₀ : Char) (s : List Char)
    (h : ∀ c cs, c ≠ c₀ → m (c :: cs) = none) (hs : c₀ ∉ s) :
    replaceScan m s = s :=
  replaceScan_id m s (fun c hc cs => h c cs (fun he => hs (he ▸ hc)))

/-! ### JS String.prototype.slice and the message chunker -/

/-- Signed index resolution of ECMAScript String.prototype.slice:
    negative indices count from the end (clamped at 0), positive ones
    are clamped at the length. -/
def jsSliceIdx (len v : Int) : Int :=
  if v < 0 then (if len + v < 0 then 0 else len + v)
  else (if v ≤ len then v else len)

/-- ECMAScript String.prototype.slice. -/
def jsSlice (s : List Char) (start stop : Int) : List Char :=
  let f := jsSliceIdx s.length start
  let t := jsSliceIdx s.length stop
  if f < t then (s.drop f.toNat).take (t - f).toNat else []

theorem jsSlice_eq (s : List Char) (start stop : Int) :
    jsSlice s start stop =
      (s.drop (jsSliceIdx s.length start).toNat).take
        (jsSliceIdx s.length stop - jsSliceIdx s.length start).toNat := by
  simp only [jsSlice]
  split
  · rfl
  · rename_i h
    have h0 : (jsSliceIdx s.length stop - jsSliceIdx s.length start).toNat = 0 := by omega
    rw [h0]
    simp

theorem jsSliceIdx_bounds (len v : Int) (hlen : 0 ≤ len) :
    0 ≤ jsSliceIdx len v ∧ jsSliceIdx len v ≤ len := by
  unfold jsSliceIdx
  split_ifs <;> omega

theorem jsSliceIdx_of_nonneg_le (len v : Int) (h0 : 0 ≤ v) (hle : v ≤ len) :
    jsSliceIdx len v = v := by
  unfold jsSliceIdx
  split_ifs <;> omega

theorem jsSliceIdx_le_self (len v : Int) (h0 : 0 ≤ v) : jsSliceIdx len v ≤ v := by
  unfold jsSliceIdx
  split_ifs <;> omega

theorem jsSlice_zero_nonneg (body : List Char) (b : Int) (hb : 0 ≤ b) :
    jsSlice body 0 b = body.take b.toNat := by
  rw [jsSlice_eq]
  have hlen : (0 : Int) ≤ (body.length : Int) := by positivity
  rw [jsSliceIdx_of_nonneg_le _ 0 le_rfl hlen]
  simp only [Int.toNat_zero, List.drop_zero, sub_zero]
  by_cases hble : b ≤ (body.length : Int)
  · rw [jsSliceIdx_of_nonneg_le _ b hb hble]
  · have h1 : jsSliceIdx (body.length : Int) b = (body.length : Int) := by
      unfold jsSliceIdx
      split_ifs <;> omega
    rw [h1]
    rw [List.take_of_length_le (by omega), List.take_of_length_le (by omega)]

theorem jsSlice_step (body : List Char) (i : Int) (stride : Nat)
    (h0 : 0 ≤ i) (hlt : i < (body.length : Int)) :
    jsSlice body i (i + stride) =
      (body.drop i.toNat).take
        ((jsSliceIdx (body.length : Int) (i + stride) - i).toNat) := by
  rw [jsSlice_eq, jsSliceIdx_of_nonneg_le _ i h0 (by omega)]

theorem jsSlice_step_len (body : List Char) (i : Int) (stride : Nat) (h0 : 0 ≤ i) :
    (jsSlice body i (i + stride)).length ≤ stride := by
  rw [jsSlice_eq]
  have h1 : (jsSliceIdx (body.length : Int) (i + stride) -
      jsSliceIdx (body.length : Int) i).toNat ≤ stride := by
    have hlen : (0 : Int) ≤ (body.length : Int) := by positivity
    unfold jsSliceIdx
    split_ifs <;> omega
  exact le_trans (List.length_take_le _ _) h1

/-- The tail loop of chunksWithHeader:
    for (let i = firstRoom; i < body.length; i += stride) push(slice).
    Structural fuel; any fuel above the number of iterations is exact. -/
def sliceChunksF (body : List Char) (stride : Nat) : Nat → Int → List (List Char)
  | 0, _ => []
  | n + 1, i =>
    if i < (body.length : Int) then
      jsSlice body i (i + stride) :: sliceChunksF body stride n (i + stride)
    else []

/-- chunksWithHeader of bot variants 1, 2 and of the JSON-API variant
    (LIMIT 2000, tail stride 1900). -/
def chunksWithHeader (headerLine body : List Char) : List (List Char) :=
  let header := headerLine ++ lc "\n\n"
  if (header ++ body).length ≤ 2000 then [header ++ body]
  else
    let firstRoom : Int := 2000 - (header.length : Int)
    (header ++ jsSlice body 0 firstRoom) ::
      sliceChunksF body 1900 (headerLine.length + body.length + 2002) firstRoom

theorem sliceChunksF_nil_of_ge (body : List Char) (stride : Nat) (n : Nat) (i : Int)
    (h : ¬ i < (body.length : Int)) : sliceChunksF body stride n i = [] := by
  cases n with
  | zero => rfl
  | succ m => simp [sliceChunksF, h]

theorem sliceChunksF_mem_len (body : List Char) (stride : Nat) :
    ∀ n i c, 0 ≤ i → c ∈ sliceChunksF body stride n i → c.length ≤ stride := by
  intro n
  induction n with
  | zero => intro i c _ hc; simp [sliceChunksF] at hc
  | succ m ih =>
    intro i c h0 hc
    simp only [sliceChunksF] at hc
    split at hc
    · rcases List.mem_cons.mp hc with h | h
      · subst h; exact jsSlice_step_len body i stride h0
      · exact ih (i + stride) c (by omega) h
    · simp at hc

theorem sliceChunksF_flatten (body : List Char) (stride : Nat) (hs : 0 < stride) :
    ∀ n i, 0 ≤ i → ((body.length : Int) - i).toNat < n →
      (sliceChunksF body stride n i).flatten = body.drop i.toNat := by
  intro n
  induction n with
  | zero => intro i _ hfuel; omega
  | succ m ih =>
    intro i h0 hfuel
    by_cases hlt : i < (body.length : Int)
    · simp only [sliceChunksF, if_pos hlt, List.flatten_cons]
      rw [jsSlice_step body i stride h0 hlt]
      by_cases hend : i + stride < (body.length : Int)
      · have hmin : jsSliceIdx (body.length : Int) (i + stride) = i + stride := by
          unfold jsSliceIdx
          split_ifs <;> omega
        rw [hmin]
        have harg : (i + (stride : Int) - i).toNat = stride := by omega
        rw [harg]
        rw [ih (i + stride) (by omega) (by omega)]
        have hdp : (i + (stride : Int)).toNat = i.toNat + stride := by omega
        rw [hdp, ← List.drop_drop]
        exact List.take_append_drop stride (body.drop i.toNat)
      · have hmin : jsSliceIdx (body.length : Int) (i + stride) = (body.length : Int) := by
          unfold jsSliceIdx
          split_ifs <;> omega
        rw [hmin]
        rw [sliceChunksF_nil_of_ge body stride m (i + stride) (by omega)]
        rw [List.flatten_nil, List.append_nil]
        apply List.take_of_length_le
        simp only [List.length_drop]
        omega
    · rw [sliceChunksF_nil_of_ge body stride (m + 1) i hlt, List.flatten_nil]
      rw [List.drop_of_length_le (by omega)]

theorem chunksWithHeader_ne_nil (hl body : List Char) : chunksWithHeader hl body ≠ [] := by
  simp only [chunksWithHeader]
  split <;> simp

theorem chunksWithHeader_len (hl body : List Char) (h : hl.length + 2 ≤ 2000) :
    ∀ c ∈ chunksWithHeader hl body, c.length ≤ 2000 := by
  intro c hc
  have hlen2 : (lc "\n\n").length = 2 := rfl
  simp only [chunksWithHeader] at hc
  split at hc
  · rename_i hfit
    rcases List.mem_singleton.mp hc with rfl
    exact hfit
  · rename_i hfit
    rcases List.mem_cons.mp hc with rfl | hmem
    · have hfr : (0 : Int) ≤ 2000 - ((hl ++ lc "\n\n").length : Int) := by
        simp only [List.length_append, hlen2]
        push_cast
        omega
      rw [jsSlice_zero_nonneg body _ hfr]
      have htk : (body.take (2000 - ((hl ++ lc "\n\n").length : Int)).toNat).length
          ≤ (2000 - ((hl ++ lc "\n\n").length : Int)).toNat :=
        List.length_take_le _ _
      simp only [List.length_append, hlen2] at htk ⊢
      omega
    · have := sliceChunksF_mem_len body 1900 _ _ c
        (by simp only [List.length_append, hlen2]; push_cast; omega) hmem
      omega

theorem chunksWithHeader_head (hl body : List Char) (h : hl.length + 2 ≤ 2000) :
    (hl ++ lc "\n\n") <+: (chunksWithHeader hl body).headD [] := by
  simp only [chunksWithHeader]
  split
  · simpa using List.prefix_append _ body
  · simpa using List.prefix_append _ _

theorem chunksWithHeader_body (hl body : List Char) (h : hl.length + 2 ≤ 2000) :
    ((chunksWithHeader hl body).headD []).drop (hl.length + 2) ++
      ((chunksWithHeader hl body).tail).flatten = body := by
  have hlen2 : (lc "\n\n").length = 2 := rfl
  have hhl : (hl ++ lc "\n\n").length = hl.length + 2 := by
    simp [List.length_append, hlen2]
  simp only [chunksWithHeader]
  split
  · rename_i hfit
    simp only [List.headD_cons, List.tail_cons, List.flatten_nil, List.append_nil]
    rw [← hhl, List.drop_left]
  · rename_i hfit
    simp only [List.headD_cons, List.tail_cons]
    have hfr : (0 : Int) ≤ 2000 - ((hl ++ lc "\n\n").length : Int) := by
      rw [hhl]; push_cast; omega
    rw [jsSlice_zero_nonneg body _ hfr]
    rw [← hhl, List.drop_left]
    rw [sliceChunksF_flatten body 1900 (by omega) _ _ hfr (by rw [hhl]; push_cast; omega)]
    exact List.take_append_drop _ body

/-- Combined functional specification of the chunker, assuming the
    header line together with its blank-line separator fits the limit. -/
theorem chunksWithHeader_spec (hl body : List Char) (h : hl.length + 2 ≤ 2000) :
    chunksWithHeader hl body ≠ [] ∧
    (∀ c ∈ chunksWithHeader hl body, c.length ≤ 2000) ∧
    (hl ++ lc "\n\n") <+: (chunksWithHeader hl body).headD [] ∧
    ((chunksWithHeader hl body).headD []).drop (hl.length + 2) ++
      ((chunksWithHeader hl body).tail).flatten = body :=
  ⟨chunksWithHeader_ne_nil hl body, chunksWithHeader_len hl body h,
    chunksWithHeader_head hl body h, chunksWithHeader_body hl body h⟩

theorem sliceChunksF_single (body : List Char) (stride : Nat) (n : Nat) (i : Int)
    (hn : 0 < n) (hlt : i < (body.length : Int))
    (hend : ¬ i + stride < (body.length : Int)) :
    sliceChunksF body stride n i = [jsSlice body i (i + stride)] := by
  cases n with
  | zero => omega
  | succ m =>
    simp only [sliceChunksF, if_pos hlt]
    rw [sliceChunksF_nil_of_ge body stride m (i + stride) hend]

/-! ### The normalizers:
    htmlToText of variants 1 to 3 and transformSteamToDiscord of the
    JSON-API variant, one matcher per String.replace call. -/

/-- replace(/\r/g, ""). -/
def removeCR (s : List Char) : List Char := s.filter (fun c => !(c = '\r'))

/-- Matcher for br tags (open-angle, ws, "br", ws, optional slash,
    close-angle; case-insensitive). -/
def brM : M :=
  mSimple (pSeq (pChar '<') (pSeq pWs (pSeq (pLitCi (lc "br"))
    (pSeq pWs (pSeq (pOpt (pChar '/')) (pChar '>')))))) (lc "\n")

/-- Matcher for opening li tags, parameterized by the bullet text
    (the plain-bullet variant uses a different marker). -/
def liOpenM (bullet : List Char) : M :=
  mSimple (pSeq (pChar '<') (pSeq pWs (pSeq (pLitCi (lc "li"))
    (pSeq pNonGtStar (pChar '>'))))) bullet

/-- Matcher for closing li tags. -/
def liCloseM : M :=
  mSimple (pSeq (pChar '<') (pSeq (pChar '/') (pSeq pWs (pSeq (pLitCi (lc "li"))
    (pSeq pWs (pChar '>')))))) (lc "\n")

/-- Opening pattern of h1-h3 tags. -/
def headingOpenP : P :=
  pSeq (pChar '<') (pSeq pWs (pSeq (pCharCi 'h')
    (pSeq (pCharIf (fun c => c = '1' || c = '2' || c = '3'))
      (pSeq pNonGtStar (pChar '>')))))

/-- Closing pattern of h1-h3 tags. -/
def headingCloseP : P :=
  pSeq (pChar '<') (pSeq (pChar '/') (pSeq pWs (pSeq (pCharCi 'h')
    (pSeq (pCharIf (fun c => c = '1' || c = '2' || c = '3'))
      (pSeq pWs (pChar '>'))))))

/-- Matcher for generic tag stripping (open-angle, one or more
    non-close-angle characters, close-angle). -/
def tagM : M := mSimple (pSeq (pChar '<') (pSeq pNonGtPlus (pChar '>'))) []

/-- strip tags inside a heading capture: t.replace(tag regex, ""). -/
def stripTags (s : List Char) : List Char := replaceScan tagM s

/-- Replacement of a heading capture in variants 2 and 3:
    newline, bracket, space, upper-cased tag-stripped trimmed text,
    space, bracket, newline (or a single newline if empty). -/
def headWrapSp (cap : List Char) : List Char :=
  let clean := (trimStr (stripTags cap)).map jsToUpper
  if clean = [] then lc "\n" else lc "\n[ " ++ clean ++ lc " ]\n"

/-- Replacement of a heading capture in variant 1 (no inner spaces). -/
def headWrapV1 (cap : List Char) : List Char :=
  let clean := (trimStr (stripTags cap)).map jsToUpper
  if clean = [] then lc "\n" else lc "\n[" ++ clean ++ lc "]\n"

/-- Heading matcher of variants 2 and 3. -/
def headingM : M := mPaired headingOpenP headingCloseP headWrapSp

/-- Heading matcher of variant 1. -/
def headingMV1 : M := mPaired headingOpenP headingCloseP headWrapV1

/-- Matcher for opening p tags. -/
def pOpenM : M :=
  mSimple (pSeq (pChar '<') (pSeq pWs (pSeq (pCharCi 'p')
    (pSeq pNonGtStar (pChar '>'))))) (lc "\n")

/-- Matcher for closing p tags. -/
def pCloseM : M :=
  mSimple (pSeq (pChar '<') (pSeq (pChar '/') (pSeq pWs (pSeq (pCharCi 'p')
    (pSeq pWs (pChar '>')))))) (lc "\n")

/-- Matcher for opening div tags (variant 3). -/
def divOpenM : M :=
  mSimple (pSeq (pChar '<') (pSeq pWs (pSeq (pLitCi (lc "div"))
    (pSeq pNonGtStar (pChar '>'))))) (lc "\n")

/-- Matcher for closing div tags (variant 3). -/
def divCloseM : M :=
  mSimple (pSeq (pChar '<') (pSeq (pChar '/') (pSeq pWs (pSeq (pLitCi (lc "div"))
    (pSeq pWs (pChar '>')))))) (lc "\n")

/-- Generic paired inline-tag matcher (strong, b, i, em, a); the open
    tag allows attributes, the close tag allows whitespace. -/
def inlineOpenP (name : List Char) : P :=
  pSeq (pChar '<') (pSeq pWs (pSeq (pLitCi name) (pSeq pNonGtStar (pChar '>'))))

def inlineCloseP (name : List Char) : P :=
  pSeq (pChar '<') (pSeq (pChar '/') (pSeq pWs (pSeq (pLitCi name)
    (pSeq pWs (pChar '>')))))

def strongM : M :=
  mPaired (inlineOpenP (lc "strong")) (inlineCloseP (lc "strong"))
    (fun cap => lc "**" ++ cap ++ lc "**")

def bTagM : M :=
  mPaired (inlineOpenP (lc "b")) (inlineCloseP (lc "b"))
    (fun cap => lc "**" ++ cap ++ lc "**")

def iTagM : M :=
  mPaired (inlineOpenP (lc "i")) (inlineCloseP (lc "i"))
    (fun cap => lc "*" ++ cap ++ lc "*")

def emM : M :=
  mPaired (inlineOpenP (lc "em")) (inlineCloseP (lc "em"))
    (fun cap => lc "*" ++ cap ++ lc "*")

/-- Anchor tags: the source pattern requires a literal space after the
    tag name, then keeps only the link text. -/
def aTagM : M :=
  mPaired (pSeq (pChar '<') (pSeq pWs (pSeq (pCharCi 'a')
      (pSeq (pChar ' ') (pSeq pNonGtStar (pChar '>'))))))
    (inlineCloseP (lc "a")) (fun cap => cap)

/-- img tags are stripped. -/
def imgM : M :=
  mSimple (pSeq (pChar '<') (pSeq pWs (pSeq (pLitCi (lc "img"))
    (pSeq pNonGtStar (pChar '>'))))) []

/-- script blocks: the open part of the pattern is only the open-angle,
    ws and the name; everything up to the closing tag is removed. -/
def scriptM : M :=
  mPaired (pSeq (pChar '<') (pSeq pWs (pLitCi (lc "script"))))
    (inlineCloseP (lc "script")) (fun _ => [])

/-- style blocks, as script blocks. -/
def styleM : M :=
  mPaired (pSeq (pChar '<') (pSeq pWs (pLitCi (lc "style"))))
    (inlineCloseP (lc "style")) (fun _ => [])

/-- Matcher collapsing runs of three or more newlines to two. -/
def collapseM : M := fun s =>
  match s with
  | c :: cs =>
    if c = '\n' then
      let n := (cs.takeWhile (fun d => d = '\n')).length + 1
      if 3 ≤ n then some (lc "\n\n", n) else none
    else none
  | [] => none

/-- Matcher removing spaces and tabs directly before a newline
    (variant 3 only). -/
def trailWsM : M := fun s =>
  match s with
  | c :: cs =>
    if c = ' ' || c = '\t' then
      let n := (cs.takeWhile (fun d => d = ' ' || d = '\t')).length + 1
      match (c :: cs).drop n with
      | '\n' :: _ => some (lc "\n", n + 1)
      | _ => none
    else none
  | [] => none

/-! ### HTML entity decoding (variant 3) -/

/-- Decimal digit-string value. -/
def digitsVal (ds : List Char) : Nat :=
  ds.foldl (fun a c => a * 10 + (c.toNat - 48)) 0

/-- Hexadecimal digit value (0-9, a-f, A-F). -/
def hexDigitVal (c : Char) : Nat :=
  if c.isDigit then c.toNat - 48
  else if 97 ≤ c.toNat ∧ c.toNat ≤ 102 then c.toNat - 87
  else c.toNat - 55

/-- Hexadecimal digit-string value. -/
def hexVal (ds : List Char) : Nat :=
  ds.foldl (fun a c => a * 16 + hexDigitVal c) 0

/-- String.fromCharCode on one code: JS reduces the argument mod 2^16;
    lone surrogate units are not valid scalar values, in which case
    Char.ofNat yields the null character (such units never occur in
    the bot's data). -/
def fromCharCode (n : Nat) : Char := Char.ofNat (n % 65536)

/-- Matcher for decimal numeric character references. -/
def decEntM : M := fun s =>
  match s with
  | c1 :: c2 :: r =>
    if c1 = '&' ∧ c2 = '#' then
      let ds := r.takeWhile Char.isDigit
      if ds = [] then none
      else
        match r.drop ds.length with
        | ';' :: _ => some ([fromCharCode (digitsVal ds)], ds.length + 3)
        | _ => none
    else none
  | _ => none

/-- Matcher for hexadecimal numeric character references
    (lower-case x, as in the source pattern). -/
def hexEntM : M := fun s =>
  match s with
  | c1 :: c2 :: c3 :: r =>
    if c1 = '&' ∧ c2 = '#' ∧ c3 = 'x' then
      let ds := r.takeWhile (fun c =>
        c.isDigit || (97 ≤ c.toNat ∧ c.toNat ≤ 102) || (65 ≤ c.toNat ∧ c.toNat ≤ 70))
      if ds = [] then none
      else
        match r.drop ds.length with
        | ';' :: _ => some ([fromCharCode (hexVal ds)], ds.length + 4)
        | _ => none
    else none
  | _ => none

/-- htmlDecode of variant 3: named entities in source order, then
    decimal and hexadecimal numeric references. -/
def htmlDecode (input : List Char) : List Char :=
  let s := replaceScan (mSimple (pSeq (pChar '&') (pLit (lc "lt;"))) (lc "<")) input
  let s := replaceScan (mSimple (pSeq (pChar '&') (pLit (lc "gt;"))) (lc ">")) s
  let s := replaceScan (mSimple (pSeq (pChar '&') (pLit (lc "amp;"))) (lc "&")) s
  let s := replaceScan (mSimple (pSeq (pChar '&') (pLit (lc "quot;"))) (lc "\"")) s
  let s := replaceScan (mSimple (pSeq (pChar '&') (pLit (lc "#39;"))) [Char.ofNat 39]) s
  let s := replaceScan decEntM s
  replaceScan hexEntM s

/-- Matcher turning Steam bb_h2 divs into h2 tags (variant 3). -/
def bbH2M : M :=
  mPaired (pSeq (pChar '<') (pSeq pWs (pSeq (pLitCi (lc "div"))
      (pSeq pWsPlus (pSeq (pLitCi (lc "class="))
        (pSeq (pCharIf (fun c => c = '"' || c = Char.ofNat 39))
          (pSeq (pLitCi (lc "bb_h2"))
            (pSeq (pCharIf (fun c => c = '"' || c = Char.ofNat 39))
              (pSeq pNonGtStar (pChar '>'))))))))))
    (inlineCloseP (lc "div"))
    (fun cap => lc "<h2>" ++ cap ++ lc "</h2>")

namespace V1

/-- htmlToText of the first bot variant (bracketed headings without
    inner spaces). -/
def htmlToText (html : List Char) : List Char :=
  let s := removeCR html
  let s := replaceScan brM s
  let s := replaceScan (liOpenM (lc "• ")) s
  let s := replaceScan liCloseM s
  let s := replaceScan headingMV1 s
  let s := replaceScan pOpenM s
  let s := replaceScan pCloseM s
  let s := replaceScan strongM s
  let s := replaceScan bTagM s
  let s := replaceScan iTagM s
  let s := replaceScan emM s
  let s := replaceScan aTagM s
  let s := replaceScan imgM s
  let s := replaceScan scriptM s
  let s := replaceScan styleM s
  let s := replaceScan tagM s
  let s := replaceScan collapseM s
  trimStr s

end V1

namespace V2

/-- htmlToText of the second bot variant (bracketed headings with
    inner spaces). -/
def htmlToText (html : List Char) : List Char :=
  let s := removeCR html
  let s := replaceScan brM s
  let s := replaceScan (liOpenM (lc "• ")) s
  let s := replaceScan liCloseM s
  let s := replaceScan headingM s
  let s := replaceScan pOpenM s
  let s := replaceScan pCloseM s
  let s := replaceScan strongM s
  let s := replaceScan bTagM s
  let s := replaceScan iTagM s
  let s := replaceScan emM s
  let s := replaceScan aTagM s
  let s := replaceScan imgM s
  let s := replaceScan scriptM s
  let s := replaceScan styleM s
  let s := replaceScan tagM s
  let s := replaceScan collapseM s
  trimStr s

end V2

namespace V3

/-- htmlToText of the RSS bot variant: entity decoding, Steam bb_h2
    mapping, div handling, trailing-whitespace stripping. -/
def htmlToText (htmlRaw : List Char) : List Char :=
  let html := htmlDecode htmlRaw
  let html := replaceScan bbH2M html
  let s := removeCR html
  let s := replaceScan brM s
  let s := replaceScan (liOpenM (lc "* ")) s
  let s := replaceScan liCloseM s
  let s := replaceScan headingM s
  let s := replaceScan pOpenM s
  let s := replaceScan pCloseM s
  let s := replaceScan divOpenM s
  let s := replaceScan divCloseM s
  let s := replaceScan strongM s
  let s := replaceScan bTagM s
  let s := replaceScan iTagM s
  let s := replaceScan emM s
  let s := replaceScan aTagM s
  let s := replaceScan imgM s
  let s := replaceScan scriptM s
  let s := replaceScan styleM s
  let s := replaceScan tagM s
  let s := replaceScan trailWsM s
  let s := replaceScan collapseM s
  trimStr s

end V3

/-! ### BBCode conversion of the JSON-API variant -/

/-- Scan for a given character on the same line (the lazy non-newline
    dot-star of the url pattern): consumed count includes the target,
    fails at a newline or at the end. -/
def findCharNoNl (target : Char) : List Char → Option (Nat × List Char)
  | [] => none
  | c :: cs =>
    if c = target then some (1, cs)
    else if c = '\n' then none
    else
      match findCharNoNl target cs with
      | some (n, r) => some (n + 1, r)
      | none => none

/-- Matcher removing bbcode img blocks. -/
def imgBbM : M :=
  mPaired (pSeq (pChar '[') (pLitCi (lc "img]")))
    (pSeq (pChar '[') (pSeq (pChar '/') (pLitCi (lc "img]"))))
    (fun _ => [])

/-- Matcher for url blocks: open bracket, "url=", lazy non-newline
    text up to the closing bracket, then the capture up to the closing
    url tag; keeps only the capture. -/
def urlBbM : M := fun s =>
  match s with
  | c :: cs =>
    if c = '[' then
      match pLitCi (lc "url=") cs with
      | none => none
      | some (n1, r1) =>
        match findCharNoNl ']' r1 with
        | none => none
        | some (n2, r2) =>
          match findClose (pSeq (pChar '[') (pSeq (pChar '/')
              (pLitCi (lc "url]")))) r2 with
          | none => none
          | some (cap, n3, _) => some (cap, 1 + n1 + n2 + n3)
    else none
  | [] => none

/-- Paired bbcode emphasis matchers. -/
def bBbM : M :=
  mPaired (pSeq (pChar '[') (pLitCi (lc "b]")))
    (pSeq (pChar '[') (pSeq (pChar '/') (pLitCi (lc "b]"))))
    (fun cap => lc "**" ++ cap ++ lc "**")

def iBbM : M :=
  mPaired (pSeq (pChar '[') (pLitCi (lc "i]")))
    (pSeq (pChar '[') (pSeq (pChar '/') (pLitCi (lc "i]"))))
    (fun cap => lc "*" ++ cap ++ lc "*")

def uBbM : M :=
  mPaired (pSeq (pChar '[') (pLitCi (lc "u]")))
    (pSeq (pChar '[') (pSeq (pChar '/') (pLitCi (lc "u]"))))
    (fun cap => lc "__" ++ cap ++ lc "__")

/-- Matcher for list-item markers: bracket, star, bracket and trailing
    whitespace become a bullet. -/
def starBbM : M :=
  mSimple (pSeq (pChar '[') (pSeq (pChar '*') (pSeq (pChar ']') pWs))) (lc "• ")

/-- Matcher removing list wrappers. -/
def listBbM : M :=
  mSimple (pSeq (pChar '[') (pSeq (pOpt (pChar '/')) (pLitCi (lc "list]")))) []

/-- Generic paired bbcode tag with optional value, keeping the inner
    text; the closing tag matches the name case-insensitively. -/
def genBbM : M := fun s =>
  match s with
  | c :: cs =>
    if c = '[' then
      let name := cs.takeWhile Char.isAlphanum
      if name = [] then none
      else
        let r1 := cs.drop name.length
        let closer := pSeq (pChar '[') (pSeq (pChar '/')
          (pSeq (pLitCi (name.map jsToLower)) (pChar ']')))
        match r1 with
        | ']' :: r2 =>
          match findClose closer r2 with
          | some (cap, n3, _) => some (cap, 1 + name.length + 1 + n3)
          | none => none
        | '=' :: r2 =>
          let v := r2.takeWhile (fun d => !(d = ']'))
          if v = [] then none
          else
            match r2.drop v.length with
            | ']' :: r3 =>
              match findClose closer r3 with
              | some (cap, n3, _) =>
                some (cap, 1 + name.length + 1 + v.length + 1 + n3)
              | none => none
            | _ => none
        | _ => none
    else none
  | [] => none

namespace Api

/-- transformSteamToDiscord of the JSON-API variant. -/
def transformSteamToDiscord (raw : List Char) : List Char :=
  let s := removeCR raw
  let s := replaceScan imgBbM s
  let s := replaceScan urlBbM s
  let s := replaceScan bBbM s
  let s := replaceScan iBbM s
  let s := replaceScan uBbM s
  let s := replaceScan starBbM s
  let s := replaceScan listBbM s
  let s := replaceScan genBbM s
  let s := replaceScan collapseM s
  trimStr s

end Api

/-! ### Pipeline models -/

/-- One publish call per message segment, in order; the environment
    assigns each call its delivery outcome (true: HTTP ok, false: a
    non-2xx response, which the bot only logs). -/
def sendAll (outcome : Nat → Bool) : Nat → List (List Char) → List (List Char × Bool)
  | _, [] => []
  | i, msg :: rest => (msg, outcome i) :: sendAll outcome (i + 1) rest

theorem sendAll_map_fst (outcome : Nat → Bool) :
    ∀ i l, (sendAll outcome i l).map Prod.fst = l := by
  intro i l
  induction l generalizing i with
  | nil => rfl
  | cons msg rest ih => simp [sendAll, ih]

theorem sendAll_getElem? (outcome : Nat → Bool) :
    ∀ l i j, (sendAll outcome j l)[i]? = l[i]?.map (fun s => (s, outcome (j + i))) := by
  intro l
  induction l with
  | nil => intro i j; simp [sendAll]
  | cons msg rest ih =>
    intro i j
    cases i with
    | zero => simp [sendAll]
    | succ n =>
      simp only [sendAll, List.getElem?_cons_succ]
      rw [ih n (j + 1)]
      have harith : j + 1 + n = j + (n + 1) := by omega
      rw [harith]

theorem sendAll_ne_nil (outcome : Nat → Bool) (i : Nat) (l : List (List Char))
    (h : l ≠ []) : sendAll outcome i l ≠ [] := by
  cases l with
  | nil => exact absurd rfl h
  | cons msg rest => simp [sendAll]

namespace V2

/-- The fixed first-message header of the HTML-listing variant
    (custom emoji, two spaces, bold Finnish title). -/
def header : List Char := lc "<:cssuomi:1410389173512310955>  **Uusi CS2-päivitys!**"

/-- The dedup gate of the HTML-listing variant:
    url is different from the stored lastUrl. -/
def isNew (url : List Char) (lastUrl : Option (List Char)) : Bool :=
  !(some url == lastUrl)

/-- Result of one cycle: the publish calls made (segment and outcome;
    a false outcome is logged by the bot) and the new marker. -/
structure Cycle where
  attempts : List (List Char × Bool)
  newLast : Option (List Char)

/-- processOnce of the HTML-listing variant, as a function of the
    fetched url, the normalized page text and the per-call delivery
    outcomes supplied by the environment. -/
def runCycle (force : Bool) (lastUrl : Option (List Char)) (url : Option (List Char))
    (text : List Char) (outcome : Nat → Bool) : Cycle :=
  match url with
  | none => ⟨[], lastUrl⟩
  | some u =>
    if isNew u lastUrl || force then
      if text = [] || (trimStr text).length < 10 then ⟨[], some u⟩
      else ⟨sendAll outcome 0 (chunksWithHeader header text), some u⟩
    else ⟨[], lastUrl⟩

end V2

namespace V3

/-- A selected RSS item (title, converted body text, source link). -/
structure Item where
  title : List Char
  text : List Char
  sourceLink : List Char

/-- The fixed header of the RSS variant. -/
def header : List Char := lc "<:cssuomi:1410389173512310955>  **Uusi CS2-päivitys!**"

/-- The fixed trailing Finnish landing link of the RSS variant. -/
def finnishLanding : List Char := lc "https://www.counter-strike.net/news/updates?l=finnish"

/-- chunksWithHeader of the RSS variant (tail stride 1800). -/
def chunksWithHeader (headerLine body : List Char) : List (List Char) :=
  let hdr := headerLine ++ lc "\n\n"
  if (hdr ++ body).length ≤ 2000 then [hdr ++ body]
  else
    let firstRoom : Int := 2000 - (hdr.length : Int)
    (hdr ++ jsSlice body 0 firstRoom) ::
      sliceChunksF body 1800 (headerLine.length + body.length + 2002) firstRoom

/-- Result of one cycle of the RSS variant: contents of the publish
    calls, in order, and the new marker. -/
structure Cycle where
  posts : List (List Char)
  newLast : Option (List Char)

/-- processOnce of the RSS variant as a function of the selected item:
    when the gate opens, an empty body is replaced by a fixed fallback
    notice, the chunks are posted, then the source link (when
    non-empty) and the Finnish landing link. -/
def processOnce (force : Bool) (lastLink : Option (List Char))
    (item : Option Item) : Cycle :=
  match item with
  | none => ⟨[], lastLink⟩
  | some it =>
    let isNewItem := !it.sourceLink.isEmpty && !(some it.sourceLink == lastLink)
    if isNewItem || force then
      let body := if it.text.isEmpty
        then lc "Patch notes available at the links below." else it.text
      let parts := chunksWithHeader header body
      let posts := parts ++
        (if it.sourceLink.isEmpty then [] else [it.sourceLink]) ++ [finnishLanding]
      ⟨posts, if it.sourceLink.isEmpty then lastLink else some it.sourceLink⟩
    else ⟨[], lastLink⟩

end V3

namespace Api

/-- One JSON-API news item. -/
structure NewsItem where
  gid : List Char
  title : List Char
  contents : List Char

/-- The custom emoji prefix of every header. -/
def emoji : List Char := lc "<:cssuomi:1410389173512310955>"

/-- The fallback condition of the JSON-API variant: no Finnish item,
    or its contents are empty or trim to fewer than 20 characters. -/
def fallbackCond (fi : Option NewsItem) : Bool :=
  match fi with
  | none => true
  | some it => it.contents.isEmpty || (trimStr it.contents).length < 20

/-- Result of one poll of the JSON-API variant. -/
structure PollOut where
  posts : List (List Char)
  newGid : Option (List Char)
  usedLang : List Char
  fetchedEnglish : Bool

/-- poll of the JSON-API variant as a function of the Finnish and
    English fetch results: Finnish first, the English feed is fetched
    exactly when the fallback condition holds; an [EN] tag is appended
    to the header when the English item is used. -/
def poll (lastGid : Option (List Char)) (fi en : Option NewsItem) : PollOut :=
  let fb := fallbackCond fi
  let item := if fb then en else fi
  let lang := if fb then lc "english" else lc "finnish"
  match item with
  | none => ⟨[], lastGid, lang, fb⟩
  | some it =>
    if !(some it.gid == lastGid) then
      let langTag := if lang == lc "finnish" then [] else lc " [EN]"
      let hdr := emoji ++ lc "  **Uusi CS2-päivitys!**" ++ langTag
      let body := transformSteamToDiscord it.contents
      ⟨chunksWithHeader hdr body, some it.gid, lang, fb⟩
    else ⟨[], lastGid, lang, fb⟩

end Api

/-! ### Selector of the RSS variant -/

/-- Substring test (String.prototype.includes / regex literal). -/
def containsSub (pat : List Char) : List Char → Bool
  | [] => pat.isPrefixOf []
  | c :: cs => pat.isPrefixOf (c :: cs) || containsSub pat cs

/-- Case-insensitive substring test (regex literal with the i flag). -/
def containsCi (pat s : List Char) : Bool := containsSub pat (s.map jsToLower)

/-- Link-shape tests of the RSS variant. -/
def isApp730Link (link : List Char) : Bool :=
  containsCi (lc "store.steampowered.com/news/app/730/view/") link

def isCsNetUpdatesLink (link : List Char) : Bool :=
  containsCi (lc "counter-strike.net/news/updates/") link

def isNewsPostLink (link : List Char) : Bool :=
  containsCi (lc "store.steampowered.com/news/post/") link

/-- linkLooksCs2 of the RSS variant (lower-cases first, as the source
    does). -/
def linkLooksCs2 (link : List Char) : Bool :=
  isCsNetUpdatesLink link || isApp730Link link || isNewsPostLink link

/-- One position of the update-keyword alternation: first literal,
    optional whitespace run, second literal. -/
def kwPairAt (a b s : List Char) : Bool :=
  a.isPrefixOf s && b.isPrefixOf ((s.drop a.length).dropWhile isJsWs)

/-- Anywhere-match of first-literal, whitespace-star, second-literal. -/
def kwPair (a b : List Char) : List Char → Bool
  | [] => kwPairAt a b []
  | c :: cs => kwPairAt a b (c :: cs) || kwPair a b cs

/-- The update-keyword alternation (release notes, patch, update,
    client update, game update) on an already lower-cased string. -/
def kwTest (s : List Char) : Bool :=
  containsSub (lc "patch") s || containsSub (lc "update") s ||
  kwPair (lc "release") (lc "notes") s ||
  kwPair (lc "client") (lc "update") s ||
  kwPair (lc "game") (lc "update") s

/-- hasUpdateKeywords of the RSS variant: the alternation on the
    lower-cased title or the lower-cased description. -/
def hasUpdateKeywords (title desc : List Char) : Bool :=
  kwTest (title.map jsToLower) || kwTest (desc.map jsToLower)

/-- Regex word character. -/
def isWordChar (c : Char) : Bool := c.isAlphanum || c = '_'

/-- One position of the product-mention alternation: counter,
    optional single dash-or-whitespace, strike; or cs2 followed by a
    word boundary. -/
def mentionsCsAt (t : List Char) : Bool :=
  ((lc "counter").isPrefixOf t &&
    ((lc "strike").isPrefixOf (t.drop 7) ||
      (match t.drop 7 with
       | c :: r => (c = '-' || isJsWs c) && (lc "strike").isPrefixOf r
       | [] => false))) ||
  ((lc "cs2").isPrefixOf t &&
    (match t.drop 3 with
     | [] => true
     | c :: _ => !isWordChar c))

/-- Anywhere-match of the product-mention alternation. -/
def mentionsCsScan : List Char → Bool
  | [] => mentionsCsAt []
  | c :: cs => mentionsCsAt (c :: cs) || mentionsCsScan cs

/-- mentionsCs of the RSS variant, applied to title-space-description
    (the i flag is modelled by lower-casing the text first). -/
def mentionsCs (s : List Char) : Bool := mentionsCsScan (s.map jsToLower)

/-- isLikelyCs2Patch of the RSS variant: explicit CS2 link shapes need
    update keywords only; the generic news-post shape additionally
    needs an explicit product mention; anything else is rejected. -/
def isLikelyCs2Patch (link title desc : List Char) : Bool :=
  if isApp730Link link || isCsNetUpdatesLink link then
    hasUpdateKeywords title desc
  else if isNewsPostLink link then
    hasUpdateKeywords title desc && mentionsCs (title ++ ' ' :: desc)
  else false

/-! ### Publisher retry model of the RSS variant -/

/-- Parse result of the body of a 429 response: JSON.parse may throw
    (malformed), succeed without a usable retry_after field (noField;
    this also covers a zero value, which is falsy in JS), or produce a
    retry-after value in seconds (rationals stand in for JS floats;
    exact on decimal values of the magnitudes involved). -/
inductive RateBody where
  | malformed : RateBody
  | noField : RateBody
  | val : ℚ → RateBody

/-- Outcome of one HTTP send attempt. -/
inductive SendOutcome where
  | ok : SendOutcome
  | rate : RateBody → SendOutcome
  | fail : Nat → SendOutcome

/-- Observable events of the post function of the RSS variant. -/
inductive PostEvent where
  | send : Nat → PostEvent
  | wait : Int → PostEvent
  | errlog : Nat → PostEvent
deriving DecidableEq

/-- The wait computed from a 429 body: 800 ms when the body fails to
    parse, otherwise ceil of (retry_after or 0.5) times 1000. -/
def waitOf : RateBody → Int
  | RateBody.malformed => 800
  | RateBody.noField => 500
  | RateBody.val q => if q = 0 then 500 else ⌈q * 1000⌉

/-- post of the RSS variant: up to the given number of attempts, an ok
    response stops, a 429 waits and retries, any other error is logged
    and stops.  The trace records sends, waits and error logs in
    order; the outcome environment gives the response to the i-th
    attempt. -/
def postRss (outcomes : Nat → SendOutcome) : Nat → Nat → List PostEvent
  | 0, _ => []
  | n + 1, i =>
    PostEvent.send i ::
      match outcomes i with
      | SendOutcome.ok => []
      | SendOutcome.rate body => PostEvent.wait (waitOf body) :: postRss outcomes n (i + 1)
      | SendOutcome.fail code => [PostEvent.errlog code]

/-! ### Helper lemmas for the claim theorems -/

theorem dropWhile_isJsWs_replicate_a (n : Nat) :
    List.dropWhile isJsWs (List.replicate n 'a') = List.replicate n 'a' := by
  cases n with
  | zero => rfl
  | succ m => simp [List.replicate_succ, List.dropWhile_cons, isJsWs]

theorem trimStr_replicate_a (n : Nat) :
    trimStr (List.replicate n 'a') = List.replicate n 'a' := by
  simp only [trimStr, trimL, trimR, List.reverse_replicate,
    dropWhile_isJsWs_replicate_a]

theorem V2.runCycle_newLast_some (force : Bool) (last : Option (List Char))
    (text : List Char) (out : Nat → Bool) (L : List Char) :
    (V2.runCycle force last (some L) text out).newLast = some L := by
  simp only [V2.runCycle]
  split
  · split <;> rfl
  · rename_i hgate
    have hbeq : (some L == last) = true := by
      rcases Bool.eq_false_or_eq_true (some L == last) with ht | hf
      · exact ht
      · exact absurd (by simp [V2.isNew, hf]) hgate
    have := eq_of_beq hbeq
    simp [← this]

/-! ### Claim C1 -/

/-- C1 (confirmed): the dedup gate is idempotent.  For every link L,
    isNew of L against a marker already equal to L is false; and when
    two successive cycles (force flag unset) see the same candidate
    identity, the second cycle makes zero publish calls.  This is
    proved for the HTML-listing variant's processOnce and for the
    JSON-API variant's poll (the two code locations of the claim). -/
theorem c1_dedup_idempotent :
    (∀ L : List Char, V2.isNew L (some L) = false) ∧
    (∀ (last : Option (List Char)) (text text' : List Char)
        (out out' : Nat → Bool) (L : List Char),
      (V2.runCycle false
        ((V2.runCycle false last (some L) text out).newLast)
        (some L) text' out').attempts = []) ∧
    (∀ (last : Option (List Char)) (fi en : Option Api.NewsItem),
      (Api.poll ((Api.poll last fi en).newGid) fi en).posts = []) := by
  refine ⟨fun L => by simp [V2.isNew], ?_, ?_⟩
  · intro last text text' out out' L
    rw [V2.runCycle_newLast_some]
    simp [V2.runCycle, V2.isNew]
  · intro last fi en
    simp only [Api.poll]
    cases hitem : (if Api.fallbackCond fi then en else fi) with
    | none => simp
    | some it =>
      by_cases hg : (some it.gid == last) = true
      · simp [hg, eq_of_beq hg]
      · simp only [Bool.not_eq_true] at hg
        simp [hg]

/-! ### Claim C2 -/

/-- C2 (corrected: the bound fails for header lines that do not fit
    the limit themselves): under the amended hypothesis that the
    header line plus its blank-line separator fits within the
    2000-character limit, the chunker returns a non-empty sequence of
    segments, each segment has length at most 2000, the header is a
    prefix of exactly the first segment, and the first segment minus
    the header followed by the remaining segments concatenates back to
    the original body. -/
theorem c2_chunker_invariant (hl body : List Char) (h : hl.length + 2 ≤ 2000) :
    chunksWithHeader hl body ≠ [] ∧
    (∀ c ∈ chunksWithHeader hl body, c.length ≤ 2000) ∧
    (hl ++ lc "\n\n") <+: (chunksWithHeader hl body).headD [] ∧
    ((chunksWithHeader hl body).headD []).drop (hl.length + 2) ++
      ((chunksWithHeader hl body).tail).flatten = body :=
  chunksWithHeader_spec hl body h

theorem c2_chunker_invariant_witness :
    ((lc "Header").length + 2 ≤ 2000) ∧
    (chunksWithHeader (lc "Header") (lc "hello") ≠ [] ∧
      (∀ c ∈ chunksWithHeader (lc "Header") (lc "hello"), c.length ≤ 2000) ∧
      ((lc "Header") ++ lc "\n\n") <+:
        (chunksWithHeader (lc "Header") (lc "hello")).headD [] ∧
      ((chunksWithHeader (lc "Header") (lc "hello")).headD []).drop
          ((lc "Header").length + 2) ++
        ((chunksWithHeader (lc "Header") (lc "hello")).tail).flatten = lc "hello") :=
  ⟨by decide, c2_chunker_invariant (lc "Header") (lc "hello") (by decide)⟩

/-- C2 counterexample: with a 2100-character header line the first
    produced segment has length 2102, violating the claimed
    unconditional 2000-character bound (JS slice with a negative end
    index makes the body contribution empty, not negative). -/
theorem c2_oversized_header_breaks_limit :
    ∃ c ∈ chunksWithHeader (List.replicate 2100 'a') (lc "x"), 2000 < c.length := by
  have h2 : (lc "\n\n").length = 2 := rfl
  have hL : (List.replicate 2100 'a' ++ lc "\n\n").length = 2102 := by
    rw [List.length_append, List.length_replicate, h2]
  have hfit : ¬ ((List.replicate 2100 'a' ++ lc "\n\n") ++ lc "x").length ≤ 2000 := by
    simp only [List.length_append, hL]
    decide
  refine ⟨List.replicate 2100 'a' ++ lc "\n\n", ?_, by rw [hL]; decide⟩
  simp only [chunksWithHeader]
  rw [if_neg hfit]
  have hslice : jsSlice (lc "x") 0
      (2000 - (((List.replicate 2100 'a' ++ lc "\n\n").length : Nat) : Int)) = [] := by
    rw [hL]
    decide
  rw [hslice, List.append_nil]
  exact List.mem_cons_self _ _

/-! ### Claim C3 -/

/-- C3 (corrected: true of the HTML-listing variant, refuted by the
    RSS variant): in the HTML-listing variant's processOnce, whenever
    the fetched candidate's normalized text is empty or trims below 10
    characters, no publish call is made and the marker still advances
    to the candidate's identity. -/
theorem c3_short_body_skips_publish (force : Bool) (last : Option (List Char))
    (u text : List Char) (out : Nat → Bool) (h : (trimStr text).length < 10) :
    (V2.runCycle force last (some u) text out).attempts = [] ∧
    (V2.runCycle force last (some u) text out).newLast = some u := by
  refine ⟨?_, V2.runCycle_newLast_some force last text out u⟩
  simp only [V2.runCycle]
  split
  · rw [if_pos]
    simp [h]
  · rfl

theorem c3_short_body_skips_publish_witness :
    ((trimStr (lc "hi")).length < 10) ∧
    ((V2.runCycle false none (some (lc "u")) (lc "hi") (fun _ => true)).attempts = [] ∧
     (V2.runCycle false none (some (lc "u")) (lc "hi") (fun _ => true)).newLast =
       some (lc "u")) :=
  ⟨by decide, c3_short_body_skips_publish false none (lc "u") (lc "hi")
    (fun _ => true) (by decide)⟩

/-- C3 counterexample: the RSS variant does not skip the publish when
    the normalized body is empty; it substitutes a fixed fallback
    notice and makes three publish calls (chunk, source link, landing
    link), refuting the claim that the Publisher is not invoked in
    such a cycle. -/
theorem c3_rss_variant_posts_fallback :
    (V3.processOnce false none
      (some { title := lc "t", text := [], sourceLink := lc "L" })).posts.length = 3 ∧
    (V3.processOnce false none
      (some { title := lc "t", text := [], sourceLink := lc "L" })).posts ≠ [] := by
  constructor <;> decide

/-! ### Claim C7 -/

/-- C7 (code bug): with FORCE_POST_ON_BOOT set, the gate is bypassed
    on every cycle, not exactly once per process invocation.  Starting
    from a marker already equal to the fetched url (so isNew is false
    on both cycles), both the first and second cycles still publish;
    the marker is updated on forced cycles as the claim states. -/
theorem c7_force_flag_not_cleared :
    (V2.runCycle true (some (lc "https://u")) (some (lc "https://u"))
        (lc "0123456789abc") (fun _ => true)).attempts ≠ [] ∧
    (V2.runCycle true
        ((V2.runCycle true (some (lc "https://u")) (some (lc "https://u"))
          (lc "0123456789abc") (fun _ => true)).newLast)
        (some (lc "https://u"))
        (lc "0123456789abc") (fun _ => true)).attempts ≠ [] ∧
    (V2.runCycle true (some (lc "https://u")) (some (lc "https://u"))
        (lc "0123456789abc") (fun _ => true)).newLast = some (lc "https://u") := by
  refine ⟨?_, ?_, ?_⟩ <;> decide

/-! ### Claim C4 -/

/-- C4 (corrected: the cycle does not end after a failed segment): in
    the HTML-listing variant, when the i-th segment send returns a
    delivery failure, that send is attempted exactly once (no retry)
    and its failure outcome is recorded (logged by the bot), every
    other segment of the message is still sent exactly once, in order,
    including those after the failed one, and the dedup marker still
    advances to the candidate's identity. -/
theorem c4_failed_segment_no_retry (force : Bool) (last : Option (List Char))
    (u text : List Char) (outcome : Nat → Bool) (i : Nat)
    (hgate : (V2.isNew u last || force) = true)
    (hlen : 10 ≤ (trimStr text).length)
    (hi : i < (chunksWithHeader V2.header text).length)
    (hfail : outcome i = false) :
    (V2.runCycle force last (some u) text outcome).attempts.map Prod.fst =
      chunksWithHeader V2.header text ∧
    (V2.runCycle force last (some u) text outcome).attempts[i]? =
      ((chunksWithHeader V2.header text)[i]?).map (fun s => (s, false)) ∧
    (V2.runCycle force last (some u) text outcome).newLast = some u := by
  have htext : ¬ text = [] := by
    intro he
    rw [he] at hlen
    simp [trimStr, trimL, trimR] at hlen
  have hrun : V2.runCycle force last (some u) text outcome =
      ⟨sendAll outcome 0 (chunksWithHeader V2.header text), some u⟩ := by
    simp only [V2.runCycle]
    rw [if_pos hgate, if_neg]
    simp [htext]
    omega
  rw [hrun]
  refine ⟨sendAll_map_fst outcome 0 _, ?_, rfl⟩
  rw [sendAll_getElem? outcome _ i 0]
  simp [hfail]

theorem c4_failed_segment_no_retry_witness :
    ((V2.isNew (lc "u") none || false) = true) ∧
    (10 ≤ (trimStr (List.replicate 2000 'a')).length) ∧
    ((fun j => !(j = 0) : Nat → Bool) 0 = false) ∧
    ((V2.runCycle false none (some (lc "u")) (List.replicate 2000 'a')
        (fun j => !(j = 0))).attempts.map Prod.fst =
      chunksWithHeader V2.header (List.replicate 2000 'a') ∧
    (V2.runCycle false none (some (lc "u")) (List.replicate 2000 'a')
        (fun j => !(j = 0))).attempts[0]? =
      ((chunksWithHeader V2.header (List.replicate 2000 'a'))[0]?).map
        (fun s => (s, false)) ∧
    (V2.runCycle false none (some (lc "u")) (List.replicate 2000 'a')
        (fun j => !(j = 0))).newLast = some (lc "u")) :=
  ⟨by decide, by rw [trimStr_replicate_a, List.length_replicate]; omega,
    by decide,
    c4_failed_segment_no_retry false none (lc "u") (List.replicate 2000 'a')
      (fun j => !(j = 0)) 0 (by decide)
      (by rw [trimStr_replicate_a, List.length_replicate]; omega)
      (List.length_pos.mpr (chunksWithHeader_ne_nil _ _)) (by decide)⟩

/-- C4 counterexample: a cycle whose message splits into two segments,
    where the first send fails: the second segment is still sent (the
    outcome trace is false-then-true and two sends happen), refuting
    the claim that the cycle ends with no further segments sent after
    a delivery failure. -/
theorem c4_cycle_continues_after_failure :
    ((V2.runCycle false none (some (lc "u")) (List.replicate 2000 'a')
        (fun j => !(j = 0))).attempts.map Prod.snd) = [false, true] ∧
    1 < (V2.runCycle false none (some (lc "u")) (List.replicate 2000 'a')
        (fun j => !(j = 0))).attempts.length := by
  have hh2 : (V2.header ++ lc "\n\n").length = 56 := rfl
  have hbody : ((List.replicate 2000 'a' : List Char).length : Int) = 2000 := by
    rw [List.length_replicate]
    norm_num
  have hfit : ¬ ((V2.header ++ lc "\n\n") ++ List.replicate 2000 'a').length ≤ 2000 := by
    rw [List.length_append, hh2, List.length_replicate]
    omega
  have htail := sliceChunksF_single (List.replicate 2000 'a') 1900
    (V2.header.length + (List.replicate 2000 'a' : List Char).length + 2002)
    (2000 - (((V2.header ++ lc "\n\n").length : Nat) : Int))
    (by omega)
    (by rw [hh2, hbody]; omega)
    (by rw [hh2, hbody]; omega)
  have hchunks : chunksWithHeader V2.header (List.replicate 2000 'a') =
      [(V2.header ++ lc "\n\n") ++
          jsSlice (List.replicate 2000 'a') 0
            (2000 - (((V2.header ++ lc "\n\n").length : Nat) : Int)),
        jsSlice (List.replicate 2000 'a')
          (2000 - (((V2.header ++ lc "\n\n").length : Nat) : Int))
          ((2000 - (((V2.header ++ lc "\n\n").length : Nat) : Int)) +
            ((1900 : Nat) : Int))] := by
    simp only [chunksWithHeader]
    rw [if_neg hfit, htail]
  have hgate : (V2.isNew (lc "u") none || false) = true := by decide
  have hrun : V2.runCycle false none (some (lc "u")) (List.replicate 2000 'a')
      (fun j => !(j = 0)) =
      ⟨sendAll (fun j => !(j = 0)) 0
        (chunksWithHeader V2.header (List.replicate 2000 'a')), some (lc "u")⟩ := by
    simp only [V2.runCycle]
    rw [if_pos hgate, if_neg]
    rw [trimStr_replicate_a, List.length_replicate]
    simp
  have hsnd : ∀ A B : List Char,
      (sendAll (fun j => !(j = 0)) 0 [A, B]).map Prod.snd = [false, true] := by
    intro A B
    simp [sendAll]
  have hlen2 : ∀ A B : List Char,
      (sendAll (fun j => !(j = 0)) 0 [A, B]).length = 2 := by
    intro A B
    simp [sendAll]
  rw [hrun, hchunks]
  exact ⟨hsnd _ _, by rw [hlen2]; omega⟩

/-! ### Claim C5 -/

/-- C5 (confirmed): in the RSS variant's post, a first attempt that is
    rate-limited with a positive retry-after value q (seconds) followed
    by a successful second attempt produces exactly the trace send,
    wait, send: one retry, no earlier duplicate send, and the wait is
    the ceiling of q times 1000 milliseconds, hence at least the
    upstream-supplied duration; when the 429 body is malformed the
    fallback wait is 800 ms, and when the retry-after field is absent
    (or zero, falsy in JS) it is 500 ms. -/
theorem c5_rate_limit_single_retry (q : ℚ) (hq : 0 < q) :
    postRss (fun i => if i = 0 then SendOutcome.rate (RateBody.val q) else SendOutcome.ok)
        3 0 =
      [PostEvent.send 0, PostEvent.wait ⌈q * 1000⌉, PostEvent.send 1] ∧
    (q * 1000 : ℚ) ≤ (⌈q * 1000⌉ : ℚ) ∧
    postRss (fun i => if i = 0 then SendOutcome.rate RateBody.malformed else SendOutcome.ok)
        3 0 =
      [PostEvent.send 0, PostEvent.wait 800, PostEvent.send 1] ∧
    postRss (fun i => if i = 0 then SendOutcome.rate RateBody.noField else SendOutcome.ok)
        3 0 =
      [PostEvent.send 0, PostEvent.wait 500, PostEvent.send 1] := by
  refine ⟨?_, Int.le_ceil _, by decide, by decide⟩
  simp [postRss, waitOf, hq.ne']

theorem c5_rate_limit_single_retry_witness :
    ((0 : ℚ) < 6 / 5) ∧ (⌈(6 / 5 : ℚ) * 1000⌉ = 1200) ∧
    (postRss (fun i => if i = 0 then SendOutcome.rate (RateBody.val (6 / 5))
          else SendOutcome.ok) 3 0 =
        [PostEvent.send 0, PostEvent.wait ⌈(6 / 5 : ℚ) * 1000⌉, PostEvent.send 1] ∧
      ((6 / 5 : ℚ) * 1000 : ℚ) ≤ (⌈(6 / 5 : ℚ) * 1000⌉ : ℚ) ∧
      postRss (fun i => if i = 0 then SendOutcome.rate RateBody.malformed
          else SendOutcome.ok) 3 0 =
        [PostEvent.send 0, PostEvent.wait 800, PostEvent.send 1] ∧
      postRss (fun i => if i = 0 then SendOutcome.rate RateBody.noField
          else SendOutcome.ok) 3 0 =
        [PostEvent.send 0, PostEvent.wait 500, PostEvent.send 1]) :=
  ⟨by norm_num, by norm_num [Int.ceil_eq_iff],
    c5_rate_limit_single_retry (6 / 5) (by norm_num)⟩

/-! ### Claim C6 -/

/-- C6 (confirmed): for every candidate whose link matches the generic
    news-post shape (and not one of the explicit CS2 link shapes), the
    selector accepts exactly when the title or description has update
    keywords and the title-plus-description explicitly mentions the
    product; in particular the generic-post candidate titled
    Unrelated Game Patch 2.0 is rejected. -/
theorem c6_generic_post_needs_product_mention :
    (∀ link title desc : List Char,
      isNewsPostLink link = true → isApp730Link link = false →
      isCsNetUpdatesLink link = false →
      isLikelyCs2Patch link title desc =
        (hasUpdateKeywords title desc && mentionsCs (title ++ ' ' :: desc))) ∧
    isLikelyCs2Patch (lc "https://store.steampowered.com/news/post/123")
      (lc "Unrelated Game Patch 2.0") [] = false := by
  constructor
  · intro link title desc hpost happ hcs
    simp [isLikelyCs2Patch, hpost, happ, hcs]
  · decide

theorem c6_generic_post_needs_product_mention_witness :
    isLikelyCs2Patch (lc "https://store.steampowered.com/news/post/123")
      (lc "Unrelated Game Patch 2.0") [] =
    (hasUpdateKeywords (lc "Unrelated Game Patch 2.0") [] &&
      mentionsCs (lc "Unrelated Game Patch 2.0" ++ ' ' :: [])) :=
  c6_generic_post_needs_product_mention.1
    (lc "https://store.steampowered.com/news/post/123")
    (lc "Unrelated Game Patch 2.0") [] (by decide) (by decide) (by decide)

/-! ### Claim C10 -/

/-- C10 (confirmed): in the JSON-API variant, whenever the Finnish
    fetch yields no item or an item whose contents trim below 20
    characters, the poll fetches the English feed as a fallback and
    uses the english language; and when the English item is published
    (it exists and its gid differs from the marker) the header
    carries the EN tag. -/
theorem c10_finnish_fallback_english_tag (last : Option (List Char))
    (fi en : Option Api.NewsItem) (h : Api.fallbackCond fi = true) :
    (Api.poll last fi en).fetchedEnglish = true ∧
    (Api.poll last fi en).usedLang = lc "english" ∧
    (∀ it : Api.NewsItem, en = some it → (some it.gid == last) = false →
      (Api.poll last fi en).posts =
        chunksWithHeader (Api.emoji ++ lc "  **Uusi CS2-päivitys!**" ++ lc " [EN]")
          (Api.transformSteamToDiscord it.contents)) := by
  refine ⟨?_, ?_, ?_⟩
  · simp only [Api.poll, h, if_true]
    cases en with
    | none => rfl
    | some it => by_cases hg : (some it.gid == last) = true <;> simp [hg]
  · simp only [Api.poll, h, if_true]
    cases en with
    | none => rfl
    | some it => by_cases hg : (some it.gid == last) = true <;> simp [hg]
  · intro it hen hg
    subst hen
    simp only [Api.poll, h, if_true, hg]
    simp only [Bool.not_false, if_true]
    rw [if_neg (by decide)]

theorem c10_finnish_fallback_english_tag_witness :
    (Api.fallbackCond (some { gid := lc "g0", title := lc "t0", contents := lc "short" })
      = true) ∧
    ((Api.poll none
        (some { gid := lc "g0", title := lc "t0", contents := lc "short" })
        (some { gid := lc "g1", title := lc "t1",
                contents := lc "long enough english patch notes" })).fetchedEnglish
      = true ∧
     (Api.poll none
        (some { gid := lc "g0", title := lc "t0", contents := lc "short" })
        (some { gid := lc "g1", title := lc "t1",
                contents := lc "long enough english patch notes" })).usedLang
      = lc "english" ∧
     (∀ it : Api.NewsItem,
        (some { gid := lc "g1", title := lc "t1",
                contents := lc "long enough english patch notes" } :
            Option Api.NewsItem) = some it →
        (some it.gid == (none : Option (List Char))) = false →
        (Api.poll none
          (some { gid := lc "g0", title := lc "t0", contents := lc "short" })
          (some { gid := lc "g1", title := lc "t1",
                  contents := lc "long enough english patch notes" })).posts =
          chunksWithHeader (Api.emoji ++ lc "  **Uusi CS2-päivitys!**" ++ lc " [EN]")
            (Api.transformSteamToDiscord it.contents))) :=
  ⟨by decide,
    c10_finnish_fallback_english_tag none
      (some { gid := lc "g0", title := lc "t0", contents := lc "short" })
      (some { gid := lc "g1", title := lc "t1",
              contents := lc "long enough english patch notes" }) (by decide)⟩

/-! ### Trigger lemmas: each matcher can only fire on its first
    pattern character, so a scan is the identity on strings without
    that character. -/

theorem scan_mSimple_pChar_id (c₀ : Char) (q : P) (rep s : List Char) (hs : c₀ ∉ s) :
    replaceScan (mSimple (pSeq (pChar c₀) q) rep) s = s :=
  replaceScan_id_of_trigger _ c₀ s
    (fun c cs h => by simp [mSimple, pSeq, pChar, h]) hs

theorem scan_mPaired_pChar_id (c₀ : Char) (q closeP : P) (wrap : List Char → List Char)
    (s : List Char) (hs : c₀ ∉ s) :
    replaceScan (mPaired (pSeq (pChar c₀) q) closeP wrap) s = s :=
  replaceScan_id_of_trigger _ c₀ s
    (fun c cs h => by simp [mPaired, pSeq, pChar, h]) hs

theorem removeCR_id (s : List Char) (hs : '\r' ∉ s) : removeCR s = s := by
  apply List.filter_eq_self.mpr
  intro a ha
  simp only [Bool.not_eq_true']
  rcases Bool.eq_false_or_eq_true (a = '\r' : Bool) with ht | hf
  · exact absurd (of_decide_eq_true ht ▸ ha) hs
  · exact hf

theorem decEntM_trig (c : Char) (cs : List Char) (h : c ≠ '&') :
    decEntM (c :: cs) = none := by
  cases cs with
  | nil => rfl
  | cons d ds => simp [decEntM, h]

theorem hexEntM_trig (c : Char) (cs : List Char) (h : c ≠ '&') :
    hexEntM (c :: cs) = none := by
  cases cs with
  | nil => rfl
  | cons d ds =>
    cases ds with
    | nil => rfl
    | cons e es => simp [hexEntM, h]

theorem urlBbM_trig (c : Char) (cs : List Char) (h : c ≠ '[') :
    urlBbM (c :: cs) = none := by
  simp [urlBbM, h]

theorem genBbM_trig (c : Char) (cs : List Char) (h : c ≠ '[') :
    genBbM (c :: cs) = none := by
  simp [genBbM, h]

theorem collapseM_trig (c : Char) (cs : List Char) (h : c ≠ '\n') :
    collapseM (c :: cs) = none := by
  simp [collapseM, h]

theorem htmlDecode_id (s : List Char) (hs : '&' ∉ s) : htmlDecode s = s := by
  simp only [htmlDecode]
  rw [scan_mSimple_pChar_id '&' _ _ s hs, scan_mSimple_pChar_id '&' _ _ s hs,
    scan_mSimple_pChar_id '&' _ _ s hs, scan_mSimple_pChar_id '&' _ _ s hs,
    scan_mSimple_pChar_id '&' _ _ s hs,
    replaceScan_id_of_trigger decEntM '&' s decEntM_trig hs,
    replaceScan_id_of_trigger hexEntM '&' s hexEntM_trig hs]

theorem stripTags_id (s : List Char) (hs : '<' ∉ s) : stripTags s = s :=
  scan_mSimple_pChar_id '<' _ _ s hs

theorem brM_scan_id (s : List Char) (hs : '<' ∉ s) : replaceScan brM s = s :=
  scan_mSimple_pChar_id '<' _ _ s hs

theorem liOpenM_scan_id (bullet s : List Char) (hs : '<' ∉ s) :
    replaceScan (liOpenM bullet) s = s :=
  scan_mSimple_pChar_id '<' _ _ s hs

theorem liCloseM_scan_id (s : List Char) (hs : '<' ∉ s) : replaceScan liCloseM s = s :=
  scan_mSimple_pChar_id '<' _ _ s hs

theorem headingM_scan_id (s : List Char) (hs : '<' ∉ s) : replaceScan headingM s = s :=
  scan_mPaired_pChar_id '<' _ _ _ s hs

theorem pOpenM_scan_id (s : List Char) (hs : '<' ∉ s) : replaceScan pOpenM s = s :=
  scan_mSimple_pChar_id '<' _ _ s hs

theorem pCloseM_scan_id (s : List Char) (hs : '<' ∉ s) : replaceScan pCloseM s = s :=
  scan_mSimple_pChar_id '<' _ _ s hs

theorem divOpenM_scan_id (s : List Char) (hs : '<' ∉ s) : replaceScan divOpenM s = s :=
  scan_mSimple_pChar_id '<' _ _ s hs

theorem divCloseM_scan_id (s : List Char) (hs : '<' ∉ s) : replaceScan divCloseM s = s :=
  scan_mSimple_pChar_id '<' _ _ s hs

theorem strongM_scan_id (s : List Char) (hs : '<' ∉ s) : replaceScan strongM s = s :=
  scan_mPaired_pChar_id '<' _ _ _ s hs

theorem bTagM_scan_id (s : List Char) (hs : '<' ∉ s) : replaceScan bTagM s = s :=
  scan_mPaired_pChar_id '<' _ _ _ s hs

theorem iTagM_scan_id (s : List Char) (hs : '<' ∉ s) : replaceScan iTagM s = s :=
  scan_mPaired_pChar_id '<' _ _ _ s hs

theorem emM_scan_id (s : List Char) (hs : '<' ∉ s) : replaceScan emM s = s :=
  scan_mPaired_pChar_id '<' _ _ _ s hs

theorem aTagM_scan_id (s : List Char) (hs : '<' ∉ s) : replaceScan aTagM s = s :=
  scan_mPaired_pChar_id '<' _ _ _ s hs

theorem imgM_scan_id (s : List Char) (hs : '<' ∉ s) : replaceScan imgM s = s :=
  scan_mSimple_pChar_id '<' _ _ s hs

theorem scriptM_scan_id (s : List Char) (hs : '<' ∉ s) : replaceScan scriptM s = s :=
  scan_mPaired_pChar_id '<' _ _ _ s hs

theorem styleM_scan_id (s : List Char) (hs : '<' ∉ s) : replaceScan styleM s = s :=
  scan_mPaired_pChar_id '<' _ _ _ s hs

theorem tagM_scan_id (s : List Char) (hs : '<' ∉ s) : replaceScan tagM s = s :=
  scan_mSimple_pChar_id '<' _ _ s hs

theorem bbH2M_scan_id (s : List Char) (hs : '<' ∉ s) : replaceScan bbH2M s = s :=
  scan_mPaired_pChar_id '<' _ _ _ s hs

theorem imgBbM_scan_id (s : List Char) (hs : '[' ∉ s) : replaceScan imgBbM s = s :=
  scan_mPaired_pChar_id '[' _ _ _ s hs

theorem bBbM_scan_id (s : List Char) (hs : '[' ∉ s) : replaceScan bBbM s = s :=
  scan_mPaired_pChar_id '[' _ _ _ s hs

theorem iBbM_scan_id (s : List Char) (hs : '[' ∉ s) : replaceScan iBbM s = s :=
  scan_mPaired_pChar_id '[' _ _ _ s hs

theorem uBbM_scan_id (s : List Char) (hs : '[' ∉ s) : replaceScan uBbM s = s :=
  scan_mPaired_pChar_id '[' _ _ _ s hs

theorem starBbM_scan_id (s : List Char) (hs : '[' ∉ s) : replaceScan starBbM s = s :=
  scan_mSimple_pChar_id '[' _ _ s hs

theorem listBbM_scan_id (s : List Char) (hs : '[' ∉ s) : replaceScan listBbM s = s :=
  scan_mSimple_pChar_id '[' _ _ s hs

theorem urlBbM_scan_id (s : List Char) (hs : '[' ∉ s) : replaceScan urlBbM s = s :=
  replaceScan_id_of_trigger urlBbM '[' s urlBbM_trig hs

theorem genBbM_scan_id (s : List Char) (hs : '[' ∉ s) : replaceScan genBbM s = s :=
  replaceScan_id_of_trigger genBbM '[' s genBbM_trig hs

/-! ### Claim C9 -/

/-- C9 (corrected: the RSS-variant normalizer also strips horizontal
    whitespace before newlines): on input free of markup constructs,
    the JSON-API normalizer transformSteamToDiscord (no bracket tags,
    no carriage returns) performs exactly newline-run collapsing
    followed by trimming, and the RSS-variant normalizer htmlToText
    (no tags, no entities, no carriage returns) performs exactly
    trailing-space-before-newline stripping, then newline-run
    collapsing, then trimming. -/
theorem c9_markup_free_whitespace_only :
    (∀ s : List Char, '[' ∉ s → '\r' ∉ s →
      Api.transformSteamToDiscord s = trimStr (replaceScan collapseM s)) ∧
    (∀ s : List Char, '<' ∉ s → '&' ∉ s → '\r' ∉ s →
      V3.htmlToText s =
        trimStr (replaceScan collapseM (replaceScan trailWsM s))) := by
  constructor
  · intro s h1 h2
    simp only [Api.transformSteamToDiscord]
    rw [removeCR_id s h2, imgBbM_scan_id s h1, urlBbM_scan_id s h1,
      bBbM_scan_id s h1, iBbM_scan_id s h1, uBbM_scan_id s h1,
      starBbM_scan_id s h1, listBbM_scan_id s h1, genBbM_scan_id s h1]
  · intro s h1 h2 h3
    simp only [V3.htmlToText]
    rw [htmlDecode_id s h2, bbH2M_scan_id s h1, removeCR_id s h3,
      brM_scan_id s h1, liOpenM_scan_id (lc "* ") s h1, liCloseM_scan_id s h1,
      headingM_scan_id s h1, pOpenM_scan_id s h1, pCloseM_scan_id s h1,
      divOpenM_scan_id s h1, divCloseM_scan_id s h1, strongM_scan_id s h1,
      bTagM_scan_id s h1, iTagM_scan_id s h1, emM_scan_id s h1,
      aTagM_scan_id s h1, imgM_scan_id s h1, scriptM_scan_id s h1,
      styleM_scan_id s h1, tagM_scan_id s h1]

theorem c9_markup_free_whitespace_only_witness :
    ('[' ∉ lc "plain bbcode-free text") ∧ ('\r' ∉ lc "plain bbcode-free text") ∧
    ('<' ∉ lc "plain html-free text") ∧ ('&' ∉ lc "plain html-free text") ∧
    (Api.transformSteamToDiscord (lc "plain bbcode-free text") =
      trimStr (replaceScan collapseM (lc "plain bbcode-free text"))) ∧
    (V3.htmlToText (lc "plain html-free text") =
      trimStr (replaceScan collapseM (replaceScan trailWsM (lc "plain html-free text")))) :=
  ⟨by decide, by decide, by decide, by decide,
    c9_markup_free_whitespace_only.1 (lc "plain bbcode-free text")
      (by decide) (by decide),
    c9_markup_free_whitespace_only.2 (lc "plain html-free text")
      (by decide) (by decide) (by decide)⟩

/-- C9 counterexample: the markup-free input a-space-newline-b has no
    newline runs to collapse and nothing to trim, so under the claim
    it would be returned unchanged; the RSS-variant normalizer instead
    deletes the space before the newline. -/
theorem c9_trailing_space_stripped :
    V3.htmlToText (lc "a \nb") = lc "a\nb" ∧ lc "a\nb" ≠ lc "a \nb" := by
  constructor <;> decide

/-! ### Heading-rule lemmas (claim C8) -/

theorem findClose_append (p : P) (t r : List Char)
    (hp : ∀ c cs, c ≠ '<' → p (c :: cs) = none) (ht : '<' ∉ t) :
    findClose p (t ++ r) =
      (findClose p r).map (fun x => (t ++ x.1, t.length + x.2.1, x.2.2)) := by
  induction t with
  | nil =>
    simp only [List.nil_append, List.length_nil]
    cases findClose p r with
    | none => rfl
    | some x => simp
  | cons c t ih =>
    have hc : c ≠ '<' := fun he => ht (he ▸ List.mem_cons_self c t)
    have ht' : '<' ∉ t := fun hd => ht (List.mem_cons_of_mem c hd)
    have hnone : p (c :: (t ++ r)) = none := hp c (t ++ r) hc
    rw [List.cons_append]
    simp only [findClose, hnone]
    rw [ih ht']
    cases hfc : findClose p r with
    | none => rfl
    | some x =>
      obtain ⟨cap, n, rest⟩ := x
      simp <;> omega

theorem headingOpenP_at (R : List Char) :
    headingOpenP ('<' :: 'h' :: '2' :: '>' :: R) = some (4, R) := rfl

theorem headingCloseP_at (R : List Char) :
    headingCloseP ('<' :: '/' :: 'h' :: '2' :: '>' :: R) = some (5, R) := rfl

theorem headingCloseP_trig (c : Char) (cs : List Char) (h : c ≠ '<') :
    headingCloseP (c :: cs) = none := by
  simp [headingCloseP, pSeq, pChar, h]

theorem brM_at_h2open (R : List Char) : brM ('<' :: 'h' :: '2' :: '>' :: R) = none := rfl

theorem brM_at_h2close (R : List Char) :
    brM ('<' :: '/' :: 'h' :: '2' :: '>' :: R) = none := rfl

theorem liOpenM_at_h2open (R : List Char) :
    liOpenM (lc "• ") ('<' :: 'h' :: '2' :: '>' :: R) = none := rfl

theorem liOpenM_at_h2close (R : List Char) :
    liOpenM (lc "• ") ('<' :: '/' :: 'h' :: '2' :: '>' :: R) = none := rfl

theorem liCloseM_at_h2open (R : List Char) :
    liCloseM ('<' :: 'h' :: '2' :: '>' :: R) = none := rfl

theorem liCloseM_at_h2close (R : List Char) :
    liCloseM ('<' :: '/' :: 'h' :: '2' :: '>' :: R) = none := rfl

theorem mSimple_pChar_trig (c₀ : Char) (q : P) (rep : List Char) (c : Char)
    (cs : List Char) (h : c ≠ c₀) : mSimple (pSeq (pChar c₀) q) rep (c :: cs) = none := by
  simp [mSimple, pSeq, pChar, h]

/-- A scanner whose matcher fires neither away from the open-angle
    character nor on the h2 open and close tags leaves an
    h2-wrapped region unchanged. -/
theorem scan_skip_h2 (m : M) (t post : List Char)
    (htrig : ∀ c cs, c ≠ '<' → m (c :: cs) = none)
    (hopen : ∀ R, m ('<' :: 'h' :: '2' :: '>' :: R) = none)
    (hclose : ∀ R, m ('<' :: '/' :: 'h' :: '2' :: '>' :: R) = none)
    (ht : '<' ∉ t) (hpost : '<' ∉ post) :
    replaceScan m ('<' :: 'h' :: '2' :: '>' :: (t ++ ('<' :: '/' :: 'h' :: '2' :: '>' :: post))) =
      '<' :: 'h' :: '2' :: '>' :: (t ++ ('<' :: '/' :: 'h' :: '2' :: '>' :: post)) := by
  rw [replaceScan_cons_none m _ _ (hopen _)]
  rw [replaceScan_cons_none m _ _ (htrig 'h' _ (by decide))]
  rw [replaceScan_cons_none m _ _ (htrig '2' _ (by decide))]
  rw [replaceScan_cons_none m _ _ (htrig '>' _ (by decide))]
  rw [replaceScan_append m t _
    (fun c hc cs => htrig c cs (fun he => ht (he ▸ hc)))]
  rw [replaceScan_cons_none m _ _ (hclose _)]
  rw [replaceScan_cons_none m _ _ (htrig '/' _ (by decide))]
  rw [replaceScan_cons_none m _ _ (htrig 'h' _ (by decide))]
  rw [replaceScan_cons_none m _ _ (htrig '2' _ (by decide))]
  rw [replaceScan_cons_none m _ _ (htrig '>' _ (by decide))]
  rw [replaceScan_id m post
    (fun c hc cs => htrig c cs (fun he => hpost (he ▸ hc)))]

/-- The heading matcher fires on an h2-wrapped markup-free region,
    capturing exactly the heading text. -/
theorem headingM_fires (t R : List Char) (ht : '<' ∉ t) :
    headingM ('<' :: 'h' :: '2' :: '>' :: (t ++ ('<' :: '/' :: 'h' :: '2' :: '>' :: R))) =
      some (headWrapSp t, 9 + t.length) := by
  simp only [headingM, mPaired, headingOpenP_at]
  rw [findClose_append headingCloseP t _ headingCloseP_trig ht]
  rw [show findClose headingCloseP ('<' :: '/' :: 'h' :: '2' :: '>' :: R) =
    some ([], 5, R) from rfl]
  simp only [Option.map_some', List.append_nil]
  rw [show 4 + (t.length + 5) = 9 + t.length from by omega]

/-- The heading pass rewrites an h2-wrapped markup-free region to the
    bracketed replacement and continues after the closing tag. -/
theorem headingM_scan_at (t post : List Char) (ht : '<' ∉ t) :
    replaceScan headingM
        ('<' :: 'h' :: '2' :: '>' :: (t ++ ('<' :: '/' :: 'h' :: '2' :: '>' :: post))) =
      headWrapSp t ++ replaceScan headingM post := by
  rw [replaceScan_cons_some headingM _ _ _ _ (headingM_fires t post ht)]
  congr 1
  have hshape : ('h' :: '2' :: '>' :: (t ++ ('<' :: '/' :: 'h' :: '2' :: '>' :: post))) =
      ('h' :: '2' :: '>' :: (t ++ ['<', '/', 'h', '2', '>'])) ++ post := by
    rw [List.cons_append, List.cons_append, List.cons_append, List.append_assoc]
    rfl
  rw [hshape]
  have hlen : ('h' :: '2' :: '>' :: (t ++ ['<', '/', 'h', '2', '>'])).length =
      9 + t.length - 1 := by
    simp
    omega
  rw [← hlen, List.drop_left]

theorem map_jsToUpper_ne (t : List Char) (x : Char)
    (hx : x.toNat < 65 ∨ 90 < x.toNat) (hs : x ∉ t) :
    x ∉ t.map jsToUpper := by
  intro hmem
  rcases List.mem_map.mp hmem with ⟨c, hc, he⟩
  have hcx : c = x := by
    unfold jsToUpper at he
    split_ifs at he with hrange
    · exfalso
      have hvalid : (c.toNat - 32) < 55296 := by
        omega
      have htn : (Char.ofNat (c.toNat - 32)).toNat = c.toNat - 32 := by
        unfold Char.ofNat
        rw [dif_pos (Or.inl hvalid)]
        simp [Char.ofNatAux, Char.toNat, UInt32.toNat, BitVec.toNat_ofNatLt]
      have := congrArg Char.toNat he
      rw [htn] at this
      omega
    · exact he
  exact hs (hcx ▸ hc)

theorem mem_trimStr (s : List Char) (a : Char) (ha : a ∈ trimStr s) : a ∈ s := by
  have h1 : a ∈ trimR s := (List.dropWhile_sublist _).subset ha
  have h2 : a ∈ s.reverse.dropWhile isJsWs := by
    simpa [trimR] using h1
  have h3 : a ∈ s.reverse := (List.dropWhile_sublist _).subset h2
  simpa using h3

theorem not_mem_trimStr (s : List Char) (a : Char) (ha : a ∉ s) : a ∉ trimStr s :=
  fun h => ha (mem_trimStr s a h)

theorem headWrapSp_eq (t : List Char) (ht : '<' ∉ t) (hne : trimStr t ≠ []) :
    headWrapSp t = lc "\n[ " ++ ((trimStr t).map jsToUpper ++ lc " ]\n") := by
  unfold headWrapSp
  rw [stripTags_id t ht]
  rw [if_neg (by simp [hne])]
  simp

theorem headingM_trig (c : Char) (cs : List Char) (h : c ≠ '<') :
    headingM (c :: cs) = none := by
  simp [headingM, mPaired, headingOpenP, pSeq, pChar, h]

theorem collapseM_at_nl_bracket (R : List Char) :
    collapseM ('\n' :: '[' :: R) = none := rfl

theorem trimL_cons_nonws (c : Char) (l : List Char) (hc : isJsWs c = false) :
    trimL (c :: l) = c :: l := by
  simp [trimL, List.dropWhile_cons, hc]

theorem trimR_append_nonws (l : List Char) (c : Char) (hc : isJsWs c = false) :
    trimR (l ++ [c]) = l ++ [c] := by
  simp [trimR, List.reverse_append, List.dropWhile_cons, hc]

theorem notMem_h2_wrap (a x : Char) (t post : List Char)
    (hx : a ≠ x) (hlt : a ≠ '<') (hh : a ≠ 'h') (h2 : a ≠ '2') (hgt : a ≠ '>')
    (hsl : a ≠ '/') (ht : a ∉ t) (hpost : a ∉ post) :
    a ∉ x :: ('<' :: 'h' :: '2' :: '>' ::
      (t ++ ('<' :: '/' :: 'h' :: '2' :: '>' :: post))) := by
  intro hm
  simp only [List.mem_cons, List.mem_append] at hm
  tauto

theorem notMem_bracket_out (a x : Char) (C post : List Char)
    (hx : a ≠ x) (hnl : a ≠ '\n') (hob : a ≠ '[') (hsp : a ≠ ' ') (hcb : a ≠ ']')
    (hC : a ∉ C) (hpost : a ∉ post) :
    a ∉ x :: ('\n' :: '[' :: ' ' :: (C ++ (' ' :: ']' :: '\n' :: post))) := by
  intro hm
  simp only [List.mem_cons, List.mem_append] at hm
  tauto

/-! ### Claim C8 -/

/-- C8 (corrected: the heading rule of variants 2 and 3 emits
    newline, bracket, space, upper-cased stripped heading text, space,
    bracket, newline, but the final trim strips these newlines at the
    output's edges, and the variant-1 rule omits the two inner
    spaces): for every markup-free single-line heading text t that
    does not trim to nothing, normalizing x-h2-t-h2close-y yields x,
    newline, bracket, space, upper-cased trimmed t, space, bracket,
    newline, y; and on the heading alone the end-to-end result is the
    trimmed bracketed form, also when the heading carries nested
    markup, which is stripped. -/
theorem c8_heading_rule :
    (∀ t : List Char, '<' ∉ t → '>' ∉ t → '\n' ∉ t → '\r' ∉ t → trimStr t ≠ [] →
      V2.htmlToText ('x' :: ('<' :: 'h' :: '2' :: '>' ::
          (t ++ ('<' :: '/' :: 'h' :: '2' :: '>' :: ['y'])))) =
        'x' :: ('\n' :: '[' :: ' ' ::
          ((trimStr t).map jsToUpper ++ (' ' :: ']' :: '\n' :: ['y'])))) ∧
    V2.htmlToText (lc "<h2>Foo Bar</h2>") = lc "[ FOO BAR ]" ∧
    V2.htmlToText (lc "<h2>Foo <b>Bar</b></h2>") = lc "[ FOO BAR ]" := by
  refine ⟨?_, by decide, by decide⟩
  intro t h1 h2 h3 h4 h5
  have hClt : '<' ∉ (trimStr t).map jsToUpper :=
    map_jsToUpper_ne _ '<' (Or.inl (by decide)) (not_mem_trimStr t '<' h1)
  have hCnl : '\n' ∉ (trimStr t).map jsToUpper :=
    map_jsToUpper_ne _ '\n' (Or.inl (by decide)) (not_mem_trimStr t '\n' h3)
  have hrS : '\r' ∉ 'x' :: ('<' :: 'h' :: '2' :: '>' ::
      (t ++ ('<' :: '/' :: 'h' :: '2' :: '>' :: ['y']))) :=
    notMem_h2_wrap '\r' 'x' t ['y'] (by decide) (by decide) (by decide) (by decide)
      (by decide) (by decide) h4 (by decide)
  simp only [V2.htmlToText]
  rw [removeCR_id _ hrS]
  rw [replaceScan_cons_none brM 'x' _ (mSimple_pChar_trig '<' _ _ 'x' _ (by decide))]
  rw [scan_skip_h2 brM t ['y']
    (fun c cs h => mSimple_pChar_trig '<' _ _ c cs h)
    brM_at_h2open brM_at_h2close h1 (by decide)]
  rw [replaceScan_cons_none (liOpenM (lc "• ")) 'x' _
    (mSimple_pChar_trig '<' _ _ 'x' _ (by decide))]
  rw [scan_skip_h2 (liOpenM (lc "• ")) t ['y']
    (fun c cs h => mSimple_pChar_trig '<' _ _ c cs h)
    liOpenM_at_h2open liOpenM_at_h2close h1 (by decide)]
  rw [replaceScan_cons_none liCloseM 'x' _
    (mSimple_pChar_trig '<' _ _ 'x' _ (by decide))]
  rw [scan_skip_h2 liCloseM t ['y']
    (fun c cs h => mSimple_pChar_trig '<' _ _ c cs h)
    liCloseM_at_h2open liCloseM_at_h2close h1 (by decide)]
  rw [replaceScan_cons_none headingM 'x' _ (headingM_trig 'x' _ (by decide))]
  rw [headingM_scan_at t ['y'] h1]
  rw [show replaceScan headingM ['y'] = ['y'] from rfl]
  rw [headWrapSp_eq t h1 h5]
  have hnorm : 'x' :: ((lc "\n[ " ++ ((trimStr t).map jsToUpper ++ lc " ]\n")) ++ ['y']) =
      'x' :: ('\n' :: '[' :: ' ' ::
        ((trimStr t).map jsToUpper ++ (' ' :: ']' :: '\n' :: ['y']))) := by
    rw [show lc "\n[ " = ['\n', '[', ' '] from rfl,
      show lc " ]\n" = [' ', ']', '\n'] from rfl]
    simp [List.append_assoc]
  rw [hnorm]
  have hout : '<' ∉ 'x' :: ('\n' :: '[' :: ' ' ::
      ((trimStr t).map jsToUpper ++ (' ' :: ']' :: '\n' :: ['y']))) :=
    notMem_bracket_out '<' 'x' _ ['y'] (by decide) (by decide) (by decide) (by decide)
      (by decide) hClt (by decide)
  rw [pOpenM_scan_id _ hout, pCloseM_scan_id _ hout, strongM_scan_id _ hout,
    bTagM_scan_id _ hout, iTagM_scan_id _ hout, emM_scan_id _ hout,
    aTagM_scan_id _ hout, imgM_scan_id _ hout, scriptM_scan_id _ hout,
    styleM_scan_id _ hout, tagM_scan_id _ hout]
  rw [replaceScan_cons_none collapseM 'x' _ (collapseM_trig 'x' _ (by decide))]
  rw [replaceScan_cons_none collapseM '\n' _ (collapseM_at_nl_bracket _)]
  rw [replaceScan_cons_none collapseM '[' _ (collapseM_trig '[' _ (by decide))]
  rw [replaceScan_cons_none collapseM ' ' _ (collapseM_trig ' ' _ (by decide))]
  rw [replaceScan_append collapseM _ _
    (fun c hc cs => collapseM_trig c cs (fun he => hCnl (he ▸ hc)))]
  rw [show replaceScan collapseM (' ' :: ']' :: '\n' :: ['y']) =
    (' ' :: ']' :: '\n' :: ['y']) from rfl]
  have hsplit : 'x' :: ('\n' :: '[' :: ' ' ::
      ((trimStr t).map jsToUpper ++ (' ' :: ']' :: '\n' :: ['y']))) =
      ('x' :: ('\n' :: '[' :: ' ' ::
        ((trimStr t).map jsToUpper ++ [' ', ']', '\n']))) ++ ['y'] := by
    simp [List.append_assoc]
  rw [trimStr, hsplit, trimR_append_nonws _ 'y' (by decide)]
  rw [show ('x' :: ('\n' :: '[' :: ' ' ::
      ((trimStr t).map jsToUpper ++ [' ', ']', '\n']))) ++ ['y'] =
    'x' :: (('\n' :: '[' :: ' ' ::
      ((trimStr t).map jsToUpper ++ [' ', ']', '\n'])) ++ ['y']) from rfl]
  rw [trimL_cons_nonws 'x' _ (by decide)]

theorem c8_heading_rule_witness :
    ('<' ∉ lc "Foo Bar") ∧ ('>' ∉ lc "Foo Bar") ∧ ('\n' ∉ lc "Foo Bar") ∧
    ('\r' ∉ lc "Foo Bar") ∧ (trimStr (lc "Foo Bar") ≠ []) ∧
    V2.htmlToText ('x' :: ('<' :: 'h' :: '2' :: '>' ::
        (lc "Foo Bar" ++ ('<' :: '/' :: 'h' :: '2' :: '>' :: ['y'])))) =
      'x' :: ('\n' :: '[' :: ' ' ::
        ((trimStr (lc "Foo Bar")).map jsToUpper ++ (' ' :: ']' :: '\n' :: ['y']))) :=
  ⟨by decide, by decide, by decide, by decide, by decide,
    c8_heading_rule.1 (lc "Foo Bar") (by decide) (by decide) (by decide)
      (by decide) (by decide)⟩

/-- C8 counterexample: the claim's example input normalizes end to end
    to the bracketed title without the claimed surrounding newlines
    (they are removed by the final trim), and the variant-1 normalizer
    cited by the claim emits the brackets without the claimed inner
    spaces. -/
theorem c8_heading_example_is_trimmed :
    V2.htmlToText (lc "<h2>Foo Bar</h2>") = lc "[ FOO BAR ]" ∧
    lc "[ FOO BAR ]" ≠ lc "\n[ FOO BAR ]\n" ∧
    V1.htmlToText (lc "x<h2>Foo Bar</h2>y") = lc "x\n[FOO BAR]\ny" := by
  refine ⟨by decide, by decide, by decide⟩
